import Mathlib

/-!
Verification of the core analytics pipeline of the airline passenger
satisfaction dashboard (src/app.py): data cleaning, session-state caching,
regression, clustering, and per-flight aggregation reporting.

Tables are modelled shallowly: a cell is either missing (pandas NaN), a
numeric value (modelled as a rational), or a string; a table is a list of
column names together with a list of rows, each row a list of cells
addressed positionally through the column-name list.
-/

/-- A single cell of a table: missing (NaN), numeric, or string. -/
inductive Cell where
  | missing : Cell
  | num : ℚ → Cell
  | str : String → Cell
deriving DecidableEq

/-- An in-memory tabular dataset: named columns and rows of cells.
Embeds a pandas DataFrame; `rows.length` is `len(data)`. -/
structure Table where
  cols : List String
  rows : List (List Cell)
deriving DecidableEq

/-- Whether a cell is missing (pandas `isna`). -/
def Cell.isMissing : Cell → Bool
  | .missing => true
  | _ => false

/-- Index of a column label in the column list, if present. -/
def colIdx (name : String) : List String → Option Nat
  | [] => none
  | c :: cs => if c = name then some 0 else (colIdx name cs).map (· + 1)

/-- The cell of row `r` in the column called `name` (missing when the
column is absent or the row is short). -/
def getCell (cols : List String) (r : List Cell) (name : String) : Cell :=
  match colIdx name cols with
  | some i => r.getD i Cell.missing
  | none => Cell.missing

/-- A row with no missing cell: the rows kept by `data.dropna()`. -/
def rowComplete (r : List Cell) : Bool :=
  r.all (fun c => !c.isMissing)

/-- Embedding of `data.dropna()` (src/app.py line 35): drop every row
holding a missing value in any column. -/
def Table.dropna (t : Table) : Table :=
  ⟨t.cols, t.rows.filter rowComplete⟩

/-- The row-filter of src/app.py lines 43-46: the satisfaction_score cell
is numeric and lies in the closed range [1, 5]. -/
def scoreOK (cols : List String) (r : List Cell) : Bool :=
  match getCell cols r "satisfaction_score" with
  | .num q => decide (1 ≤ q) && decide (q ≤ 5)
  | _ => false

/-- Embedding of `clean_data` (src/app.py lines 30-47): propagate None,
drop rows with missing values, fail (return None) when the
satisfaction_score column is absent, then keep only rows whose score lies
in [1, 5]. -/
def clean_data : Option Table → Option Table
  | none => none
  | some t =>
    let tc := t.dropna
    if "satisfaction_score" ∈ tc.cols then
      some ⟨tc.cols, tc.rows.filter (fun r => scoreOK tc.cols r)⟩
    else
      none

/-- The column names mentioned by the `st.error` message that `clean_data`
emits when it fails (src/app.py line 39 names only satisfaction_score). -/
def clean_data_msgCols : Option Table → List String
  | none => []
  | some t =>
    if "satisfaction_score" ∈ t.dropna.cols then [] else ["satisfaction_score"]

/-- The per-session state kept in `st.session_state` by `main`
(src/app.py lines 145-190): the uploaded raw table under key raw_data and,
when present, the stored cleaning result under key clean_data (itself an
Option, since `clean_data` may return None). -/
structure Session where
  raw_data : Option Table
  clean_cache : Option (Option Table)
deriving DecidableEq

/-- The session before any upload. -/
def initSession : Session := ⟨none, none⟩

/-- Handling a file upload (src/app.py lines 145-149): the parsed table is
stored under raw_data; the clean_data cache key is left untouched. -/
def uploadFile (s : Session) (t : Table) : Session :=
  ⟨some t, s.clean_cache⟩

/-- Visiting the data-cleaning page (src/app.py lines 167-173):
`clean_data` is computed and stored only when the clean_data key is absent;
otherwise the stored value is served unchanged. -/
def runCleaningPage (s : Session) : Session :=
  match s.raw_data with
  | none => s
  | some d =>
    match s.clean_cache with
    | none => ⟨s.raw_data, some (clean_data (some d))⟩
    | some _ => s

/-- Modelled from the spec: the sklearn `LinearRegression().fit(X, y)` call
of src/app.py lines 62-63 is not part of the repository, so the fit is
taken from section 4.5 of the specification — ordinary least squares for
`score = a * feature + b` in closed form via means and covariance. Returns
the pair (coefficient, intercept). When the feature has zero variance the
rational convention `q / 0 = 0` yields the minimal-norm least-squares
solution (slope 0, intercept the mean of the scores), which is what the
library computes there. -/
def linfit (pts : List (ℚ × ℚ)) : ℚ × ℚ :=
  let n : ℚ := pts.length
  let xbar : ℚ := (pts.map Prod.fst).sum / n
  let ybar : ℚ := (pts.map Prod.snd).sum / n
  let sxx : ℚ := (pts.map (fun p => (p.1 - xbar) ^ 2)).sum
  let sxy : ℚ := (pts.map (fun p => (p.1 - xbar) * (p.2 - ybar))).sum
  let a : ℚ := sxy / sxx
  (a, ybar - a * xbar)

/-- Embedding of `perform_regression_analysis` (src/app.py lines 61-76):
fit the one-feature linear model on the column X paired with the scores y
and return the fitted coefficient (the source returns `model.coef_` only;
the intercept lives in the fitted model and draws the regression line). -/
def perform_regression_analysis (X y : List ℚ) : ℚ :=
  (linfit (X.zip y)).1

/-- A row of the cleaned table projected onto the chosen numeric feature
columns, as handed to the clustering stage. -/
abbrev Point := List ℚ

/-- Squared Euclidean distance between two feature vectors. -/
def sqDist (p q : Point) : ℚ :=
  (List.zipWith (fun a b => (a - b) ^ 2) p q).sum

/-- Index of the centroid nearest to `p` among the remaining centroids,
scanning left to right and keeping the earlier index on ties (the argmin
convention of the library assignment step). `i` is the index of the head
of the remaining list, `bd` the best distance so far, `best` its index. -/
def nearestAux (p : Point) : List Point → Nat → ℚ → Nat → Nat
  | [], _, _, best => best
  | c :: cs, i, bd, best =>
    let d := sqDist p c
    if d < bd then nearestAux p cs (i + 1) d i
    else nearestAux p cs (i + 1) bd best

/-- Index of the centroid nearest to `p` (0 for an empty centroid list). -/
def nearest (cs : List Point) (p : Point) : Nat :=
  match cs with
  | [] => 0
  | c :: rest => nearestAux p rest 1 (sqDist p c) 0

/-- Assignment step: label each row with its nearest centroid. -/
def assign (cs : List Point) (ps : List Point) : List Nat :=
  ps.map (nearest cs)

/-- Coordinatewise sum of two feature vectors. -/
def addPt (p q : Point) : Point := List.zipWith (· + ·) p q

/-- Scale a feature vector. -/
def scalePt (a : ℚ) (p : Point) : Point := p.map (fun x => a * x)

/-- Coordinatewise mean of a nonempty list of points; the fallback is used
for a cluster that received no row (its centroid is kept). -/
def meanPoint (dflt : Point) : List Point → Point
  | [] => dflt
  | p :: rest =>
    scalePt (1 / ((p :: rest).length : ℚ)) (rest.foldl addPt p)

/-- Update step: each of the `cs.length` centroids becomes the mean of the
rows assigned to it (or stays put when no row was). -/
def updateCentroids (cs : List Point) (ps : List Point) (ls : List Nat) :
    List Point :=
  (List.range cs.length).map (fun j =>
    meanPoint (cs.getD j [])
      ((ps.zip ls).filterMap (fun pl => if pl.2 = j then some pl.1 else none)))

/-- The bounded assign/update iteration: stop when the assignment is
stable or when the iteration budget (the library default cap of 300) runs
out, and return the final labels. -/
def kmeansLoop (ps : List Point) : Nat → List Point → List Nat
  | 0, cs => assign cs ps
  | fuel + 1, cs =>
    let ls := assign cs ps
    let cs2 := updateCentroids cs ps ls
    if assign cs2 ps = ls then ls else kmeansLoop ps fuel cs2

/-- Deterministic seed-driven centroid initialisation: rotate the rows by
`seed` modulo the row count and take the first `k`. -/
def initCentroids (seed k : Nat) (ps : List Point) : List Point :=
  let n := ps.length
  let r := if n = 0 then 0 else seed % n
  ((ps.drop r) ++ (ps.take r)).take k

/-- Modelled from the spec: the sklearn `KMeans(n_clusters,
random_state=42).fit_predict(data)` call of src/app.py lines 79-80 is not
part of the repository, so the clustering heuristic is taken from section
4.6 of the specification — initialise k centroids deterministically from
the seed, then repeat nearest-centroid assignment and centroid-mean update
until the assignment stops changing or a bounded iteration cap is
reached. -/
def kmeans (seed k : Nat) (ps : List Point) : List Nat :=
  kmeansLoop ps 300 (initCentroids seed k ps)

/-- Embedding of `perform_clustering` (src/app.py lines 78-99): run the
clustering heuristic with the fixed seed `random_state=42` and return the
labels. -/
def perform_clustering (data : List Point) (n_clusters : Nat) : List Nat :=
  kmeans 42 n_clusters data

/-- Lexicographic comparison of character lists, by code point. -/
def charListLE : List Char → List Char → Bool
  | [], _ => true
  | _ :: _, [] => false
  | x :: xs, y :: ys =>
    if x.toNat < y.toNat then true
    else if y.toNat < x.toNat then false
    else charListLE xs ys

/-- Lexicographic comparison of strings, by code point. -/
def strLE (a b : String) : Bool := charListLE a.data b.data

/-- Ordering used to sort group keys ascending (pandas groupby sorts its
keys); numeric keys sort by value, string keys lexicographically. -/
def cellLE : Cell → Cell → Bool
  | .missing, _ => true
  | _, .missing => false
  | .num a, .num b => decide (a ≤ b)
  | .num _, .str _ => true
  | .str _, .num _ => false
  | .str a, .str b => strLE a b

/-- Insert a key into a list sorted ascending by `cellLE`. -/
def insertCell (x : Cell) : List Cell → List Cell
  | [] => [x]
  | y :: ys => if cellLE x y then x :: y :: ys else y :: insertCell x ys

/-- Insertion sort of keys ascending by `cellLE`. -/
def sortCells : List Cell → List Cell
  | [] => []
  | x :: xs => insertCell x (sortCells xs)

/-- Remove duplicate keys, keeping the first occurrence of each. -/
def dedupKeys : List Cell → List Cell
  | [] => []
  | c :: cs => c :: (dedupKeys cs).filter (fun x => x ≠ c)

/-- The distinct non-missing flight_id values of the table, sorted
ascending: the group keys of `groupby` (which drops missing keys and sorts
them). -/
def groupKeys (t : Table) : List Cell :=
  sortCells (dedupKeys ((t.rows.map
    (fun r => getCell t.cols r "flight_id")).filter (fun c => !c.isMissing)))

/-- The numeric satisfaction_score values of the rows whose flight_id
equals `key` (missing or non-numeric scores are skipped, as the pandas
aggregations skip NaN). -/
def groupScores (t : Table) (key : Cell) : List ℚ :=
  t.rows.filterMap (fun r =>
    if getCell t.cols r "flight_id" = key then
      match getCell t.cols r "satisfaction_score" with
      | .num q => some q
      | _ => none
    else none)

/-- Sample variance (denominator n - 1), the square of the sample standard
deviation that pandas `std` computes. The standard deviation itself is
irrational in general, so the report row carries this square. -/
def sampleVar (xs : List ℚ) : ℚ :=
  let m := xs.sum / (xs.length : ℚ)
  (xs.map (fun x => (x - m) ^ 2)).sum / ((xs.length : ℚ) - 1)

/-- One row of the per-flight report: the key, the mean and count of its
scores, and the square of the sample standard deviation — `none` for a
singleton group, where pandas `std` is undefined (NaN). -/
structure GroupRow where
  key : Cell
  mean : ℚ
  count : Nat
  svar : Option ℚ
deriving DecidableEq

/-- The report row of one group. -/
def mkGroupRow (t : Table) (key : Cell) : GroupRow :=
  let xs := groupScores t key
  ⟨key, xs.sum / (xs.length : ℚ), xs.length,
    if 2 ≤ xs.length then some (sampleVar xs) else none⟩

/-- Embedding of `generate_report` (src/app.py lines 101-122): fail
(return None) unless both flight_id and satisfaction_score are present,
else aggregate mean, count and standard deviation of the score per
flight_id group. -/
def generate_report (t : Table) : Option (List GroupRow) :=
  if "flight_id" ∈ t.cols ∧ "satisfaction_score" ∈ t.cols then
    some ((groupKeys t).map (mkGroupRow t))
  else
    none

/-- Insert a row into a list sorted descending by mean. -/
def insertDesc (x : GroupRow) : List GroupRow → List GroupRow
  | [] => [x]
  | y :: ys => if y.mean ≤ x.mean then x :: y :: ys else y :: insertDesc x ys

/-- Embedding of `report.sort_values(ascending=False)` on the mean column
(src/app.py line 298): sort the report rows by descending mean. -/
def sortDescByMean : List GroupRow → List GroupRow
  | [] => []
  | x :: xs => insertDesc x (sortDescByMean xs)

/-- The three-row scenario table: flight_id values A, A, B with scores
4, 5, 3. -/
def scenarioTable : Table :=
  ⟨["flight_id", "satisfaction_score"],
   [[Cell.str "A", Cell.num 4], [Cell.str "A", Cell.num 5],
    [Cell.str "B", Cell.num 3]]⟩

lemma dropna_cols (t : Table) : t.dropna.cols = t.cols := rfl

lemma clean_data_some (t : Table) (h : "satisfaction_score" ∈ t.cols) :
    clean_data (some t) =
      some ⟨t.cols, (t.rows.filter rowComplete).filter
        (fun r => scoreOK t.cols r)⟩ := by
  simp [clean_data, Table.dropna, h]

/-- Every row of a cleaned table is complete and passes the score filter. -/
lemma clean_mem_props (t : Table) (c : Table)
    (hc : clean_data (some t) = some c) :
    ∀ r ∈ c.rows, rowComplete r = true ∧ scoreOK c.cols r = true := by
  by_cases h : "satisfaction_score" ∈ t.dropna.cols
  · simp only [clean_data, if_pos h, Option.some.injEq] at hc
    subst hc
    intro r hr
    simp only [Table.dropna] at hr ⊢
    rcases List.mem_filter.mp hr with ⟨hr2, hso⟩
    rcases List.mem_filter.mp hr2 with ⟨_, hrc⟩
    exact ⟨hrc, hso⟩
  · simp [clean_data, if_neg h] at hc

/-- C1. Cleaning is idempotent: for every validated table (one that holds
the required flight_id and satisfaction_score columns), cleaning the result
of cleaning returns it unchanged. -/
theorem clean_data_idempotent (T : Table)
    (_hf : "flight_id" ∈ T.cols) (hs : "satisfaction_score" ∈ T.cols) :
    clean_data (clean_data (some T)) = clean_data (some T) := by
  rw [clean_data_some T hs]
  set C : Table := ⟨T.cols, (T.rows.filter rowComplete).filter
    (fun r => scoreOK T.cols r)⟩ with hC
  have hmem : ∀ r ∈ C.rows, rowComplete r = true ∧ scoreOK T.cols r = true := by
    intro r hr
    rw [hC] at hr
    simp only at hr
    rcases List.mem_filter.mp hr with ⟨hr2, hso⟩
    rcases List.mem_filter.mp hr2 with ⟨_, hrc⟩
    exact ⟨hrc, hso⟩
  have hCcols : C.cols = T.cols := rfl
  rw [clean_data_some C (by rw [hCcols]; exact hs)]
  have h1 : C.rows.filter rowComplete = C.rows :=
    List.filter_eq_self.mpr (fun r hr => (hmem r hr).1)
  rw [hCcols, h1]
  have h2 : C.rows.filter (fun r => scoreOK T.cols r) = C.rows :=
    List.filter_eq_self.mpr (fun r hr => (hmem r hr).2)
  rw [h2]

/-- Witness for C1 at a concrete validated table. -/
theorem clean_data_idempotent_witness :
    ("flight_id" ∈ (Table.mk ["flight_id", "satisfaction_score"]
        [[Cell.str "A", Cell.num 4], [Cell.str "B", Cell.missing]]).cols) ∧
    ("satisfaction_score" ∈ (Table.mk ["flight_id", "satisfaction_score"]
        [[Cell.str "A", Cell.num 4], [Cell.str "B", Cell.missing]]).cols) ∧
    clean_data (clean_data (some (Table.mk ["flight_id", "satisfaction_score"]
        [[Cell.str "A", Cell.num 4], [Cell.str "B", Cell.missing]]))) =
      clean_data (some (Table.mk ["flight_id", "satisfaction_score"]
        [[Cell.str "A", Cell.num 4], [Cell.str "B", Cell.missing]])) :=
  ⟨by decide, by decide,
    clean_data_idempotent _ (by decide) (by decide)⟩

/-- C2. Every table returned by `clean_data` has all satisfaction_score
values numeric and in [1, 5], and no cell of any row (in particular no
cell of a required column) is missing. -/
theorem clean_data_range_and_complete (T C : Table)
    (hc : clean_data (some T) = some C) :
    ∀ r ∈ C.rows,
      (∃ q : ℚ, getCell C.cols r "satisfaction_score" = Cell.num q ∧
        1 ≤ q ∧ q ≤ 5) ∧
      (∀ c ∈ r, c ≠ Cell.missing) := by
  intro r hr
  obtain ⟨hrc, hso⟩ := clean_mem_props T C hc r hr
  constructor
  · unfold scoreOK at hso
    rcases hg : getCell C.cols r "satisfaction_score" with _ | q | s
    · rw [hg] at hso; simp at hso
    · rw [hg] at hso
      simp only [Bool.and_eq_true, decide_eq_true_eq] at hso
      exact ⟨q, rfl, hso.1, hso.2⟩
    · rw [hg] at hso; simp at hso
  · intro c hcm
    unfold rowComplete at hrc
    have := List.all_eq_true.mp hrc c hcm
    cases c <;> simp_all [Cell.isMissing]

/-- Witness for C2 at a concrete input table. -/
theorem clean_data_range_and_complete_witness :
    clean_data (some (Table.mk ["flight_id", "satisfaction_score"]
        [[Cell.str "A", Cell.num 4], [Cell.str "B", Cell.num 9],
         [Cell.missing, Cell.num 2]])) =
      some (Table.mk ["flight_id", "satisfaction_score"]
        [[Cell.str "A", Cell.num 4]]) ∧
    ∀ r ∈ (Table.mk ["flight_id", "satisfaction_score"]
        [[Cell.str "A", Cell.num 4]]).rows,
      (∃ q : ℚ, getCell ["flight_id", "satisfaction_score"] r
          "satisfaction_score" = Cell.num q ∧ 1 ≤ q ∧ q ≤ 5) ∧
      (∀ c ∈ r, c ≠ Cell.missing) :=
  ⟨by decide,
    clean_data_range_and_complete
      (Table.mk ["flight_id", "satisfaction_score"]
        [[Cell.str "A", Cell.num 4], [Cell.str "B", Cell.num 9],
         [Cell.missing, Cell.num 2]])
      (Table.mk ["flight_id", "satisfaction_score"]
        [[Cell.str "A", Cell.num 4]]) (by decide)⟩

/-- C10. `clean_data` drops every row with a missing value in any column:
no cell anywhere in the returned table is missing. -/
theorem clean_data_drops_all_missing (T C : Table)
    (hc : clean_data (some T) = some C) :
    ∀ r ∈ C.rows, ∀ c ∈ r, ¬ c.isMissing := by
  intro r hr c hcm
  obtain ⟨hrc, _⟩ := clean_mem_props T C hc r hr
  unfold rowComplete at hrc
  have := List.all_eq_true.mp hrc c hcm
  simp_all

/-- Witness for C10: a row missing a value in a non-required column is
dropped too. -/
theorem clean_data_drops_all_missing_witness :
    clean_data (some (Table.mk ["flight_id", "satisfaction_score", "age"]
        [[Cell.str "A", Cell.num 4, Cell.num 30],
         [Cell.str "B", Cell.num 5, Cell.missing]])) =
      some (Table.mk ["flight_id", "satisfaction_score", "age"]
        [[Cell.str "A", Cell.num 4, Cell.num 30]]) ∧
    ∀ r ∈ (Table.mk ["flight_id", "satisfaction_score", "age"]
        [[Cell.str "A", Cell.num 4, Cell.num 30]]).rows,
      ∀ c ∈ r, ¬ c.isMissing :=
  ⟨by decide,
    clean_data_drops_all_missing
      (Table.mk ["flight_id", "satisfaction_score", "age"]
        [[Cell.str "A", Cell.num 4, Cell.num 30],
         [Cell.str "B", Cell.num 5, Cell.missing]])
      (Table.mk ["flight_id", "satisfaction_score", "age"]
        [[Cell.str "A", Cell.num 4, Cell.num 30]]) (by decide)⟩

/-- C5 counterexample. On a validated table whose only row is removed by
cleaning, `clean_data` does not fail: it returns an empty table, the only
failure the source can report being the None return of the missing-column
check. -/
theorem empty_clean_no_error_cex :
    clean_data (some (Table.mk ["flight_id", "satisfaction_score"]
        [[Cell.str "A", Cell.missing]])) =
      some (Table.mk ["flight_id", "satisfaction_score"] []) ∧
    clean_data (some (Table.mk ["flight_id", "satisfaction_score"]
        [[Cell.str "A", Cell.missing]])) ≠ none := by
  constructor
  · decide
  · decide

/-- C5 amended. When cleaning removes every row of a validated table (each
row either has a missing value or an out-of-range score), `clean_data`
returns a table with zero rows rather than an error. -/
theorem clean_all_rows_removed_returns_empty (T : Table)
    (hs : "satisfaction_score" ∈ T.cols)
    (hall : ∀ r ∈ T.rows, rowComplete r = true → scoreOK T.cols r = false) :
    clean_data (some T) = some ⟨T.cols, []⟩ := by
  rw [clean_data_some T hs]
  have hrows : (T.rows.filter rowComplete).filter
      (fun r => scoreOK T.cols r) = [] := by
    apply List.filter_eq_nil_iff.mpr
    intro r hr
    rcases List.mem_filter.mp hr with ⟨hrm, hrc⟩
    simp [hall r hrm hrc]
  rw [hrows]

/-- Witness for the amended C5. -/
theorem clean_all_rows_removed_returns_empty_witness :
    ("satisfaction_score" ∈ (Table.mk ["flight_id", "satisfaction_score"]
        [[Cell.str "A", Cell.missing], [Cell.str "B", Cell.num 7]]).cols) ∧
    clean_data (some (Table.mk ["flight_id", "satisfaction_score"]
        [[Cell.str "A", Cell.missing], [Cell.str "B", Cell.num 7]])) =
      some ⟨["flight_id", "satisfaction_score"], []⟩ :=
  ⟨by decide,
    clean_all_rows_removed_returns_empty _ (by decide) (by decide)⟩

/-- C4 counterexample. On a table missing both flight_id and
satisfaction_score, the validation of the pipeline (the check inside
`clean_data`, which runs before `generate_report` can be reached) fails
reporting only satisfaction_score: the error does not carry the full set
of missing columns, flight_id in particular. -/
theorem schema_error_not_full_set_cex :
    clean_data (some (Table.mk ["x"] [[Cell.num 1]])) = none ∧
    clean_data_msgCols (some (Table.mk ["x"] [[Cell.num 1]])) =
      ["satisfaction_score"] ∧
    "flight_id" ∉ clean_data_msgCols (some (Table.mk ["x"] [[Cell.num 1]])) := by
  refine ⟨by decide, by decide, by decide⟩

/-- C4 amended. Whenever satisfaction_score is absent, `clean_data` fails
(returns None) and its error message names exactly the one column
satisfaction_score, regardless of which other required columns are also
missing. -/
theorem schema_error_only_score_reported (T : Table)
    (hs : "satisfaction_score" ∉ T.cols) :
    clean_data (some T) = none ∧
    clean_data_msgCols (some T) = ["satisfaction_score"] := by
  have h : "satisfaction_score" ∉ T.dropna.cols := by
    rw [dropna_cols]; exact hs
  constructor
  · simp [clean_data, h]
  · simp [clean_data_msgCols, h]

/-- Witness for the amended C4. -/
theorem schema_error_only_score_reported_witness :
    ("satisfaction_score" ∉ (Table.mk ["x"] [[Cell.num 1]]).cols) ∧
    clean_data (some (Table.mk ["x"] [[Cell.num 1]])) = none ∧
    clean_data_msgCols (some (Table.mk ["x"] [[Cell.num 1]])) =
      ["satisfaction_score"] :=
  ⟨by decide, schema_error_only_score_reported _ (by decide)⟩

/-- C3 evidence. First half of the claim holds: re-uploading byte-identical
content reuses the stored cleaning result without recomputation (the state
is untouched). Second half fails: after uploading a table with different
content, the cleaning page still serves the result cached for the old
table, which differs from the cleaning of the new one — the cache is keyed
on mere presence of the session key, not on a content fingerprint, so it is
never invalidated. -/
theorem cache_stale_after_new_upload :
    (let t1 : Table := ⟨["satisfaction_score"], [[Cell.num 2]]⟩
     let t2 : Table := ⟨["satisfaction_score"], [[Cell.num 3]]⟩
     let s1 := runCleaningPage (uploadFile initSession t1)
     runCleaningPage (uploadFile s1 t1) = uploadFile s1 t1 ∧
     s1.clean_cache = some (clean_data (some t1)) ∧
     (runCleaningPage (uploadFile s1 t2)).clean_cache =
       some (clean_data (some t1)) ∧
     clean_data (some t1) ≠ clean_data (some t2)) := by
  refine ⟨by decide, by decide, by decide, by decide⟩

/-- C7. On the noise-free synthetic input x in {1,..,5} with
score = 2 * x + 1, the fitted model has coefficient exactly 2 and
intercept exactly 1, and `perform_regression_analysis` returns 2. -/
theorem regression_synthetic_exact :
    linfit [((1 : ℚ), 3), (2, 5), (3, 7), (4, 9), (5, 11)] = (2, 1) ∧
    perform_regression_analysis [1, 2, 3, 4, 5] [3, 5, 7, 9, 11] = 2 := by
  constructor
  · norm_num [linfit]
  · norm_num [perform_regression_analysis, linfit]

/-- C8 counterexample. On a zero-variance feature (both x values equal 3),
the analyzer does not fail: it returns the fit with slope 0, the fitted
intercept being the mean of the scores. No ConstantFeatureError exists
anywhere in the source; `model.fit` is called unconditionally. -/
theorem constant_feature_returns_fit_cex :
    perform_regression_analysis [3, 3] [4, 6] = 0 ∧
    linfit [((3 : ℚ), 4), (3, 6)] = (0, 5) := by
  constructor
  · norm_num [perform_regression_analysis, linfit]
  · norm_num [linfit]

lemma sum_const_list (l : List ℚ) (c : ℚ) (h : ∀ x ∈ l, x = c) :
    l.sum = l.length * c := by
  induction l with
  | nil => simp
  | cons a t ih =>
    have ha : a = c := h a (List.mem_cons_self a t)
    have ht : t.sum = t.length * c := ih (fun x hx => h x (List.mem_cons_of_mem a hx))
    simp [ha, ht]
    ring

/-- C8 amended. For every feature column all of whose values coincide
(zero variance, with scores of matching length), the analyzer returns the
slope-0 fit rather than failing: the returned coefficient is 0 and the
fitted intercept is the mean of the scores. -/
theorem constant_feature_slope_zero (xs ys : List ℚ) (c : ℚ)
    (hne : xs ≠ []) (hconst : ∀ x ∈ xs, x = c) (hlen : xs.length = ys.length) :
    perform_regression_analysis xs ys = 0 ∧
    (linfit (xs.zip ys)).2 = ys.sum / ys.length := by
  have hfst : (xs.zip ys).map Prod.fst = xs := List.map_fst_zip xs ys hlen.le
  have hsnd : (xs.zip ys).map Prod.snd = ys := List.map_snd_zip xs ys hlen.ge
  have hlz : (xs.zip ys).length = xs.length := by
    rw [List.length_zip, ← hlen, Nat.min_self]
  have hn0 : ((xs.length : ℚ)) ≠ 0 := by
    have : xs.length ≠ 0 := by
      intro h0
      exact hne (List.length_eq_zero.mp h0)
    exact_mod_cast this
  have hxbar : xs.sum / (xs.length : ℚ) = c := by
    rw [sum_const_list xs c hconst, mul_div_cancel_left₀ _ hn0]
  have hzero : ((xs.zip ys).map (fun p => (p.1 - c) ^ 2)).sum = 0 := by
    apply List.sum_eq_zero
    intro x hx
    rcases List.mem_map.mp hx with ⟨p, hp, rfl⟩
    have hp1 : p.1 = c := hconst p.1 (List.of_mem_zip hp).1
    rw [hp1]
    ring
  constructor
  · simp only [perform_regression_analysis, linfit, hfst, hsnd, hlz, hxbar,
      hzero, div_zero]
  · simp only [linfit, hfst, hsnd, hlz, hxbar, hzero, div_zero, zero_mul,
      sub_zero]
    rw [hlen]

/-- Witness for the amended C8. -/
theorem constant_feature_slope_zero_witness :
    (([3, 3] : List ℚ) ≠ []) ∧ (∀ x ∈ ([3, 3] : List ℚ), x = 3) ∧
    (([3, 3] : List ℚ).length = ([4, 6] : List ℚ).length) ∧
    (perform_regression_analysis [3, 3] [4, 6] = 0 ∧
      (linfit (([3, 3] : List ℚ).zip [4, 6])).2 =
        ([4, 6] : List ℚ).sum / (([4, 6] : List ℚ).length : ℚ)) :=
  ⟨by decide, by decide, by decide,
    constant_feature_slope_zero [3, 3] [4, 6] 3 (by decide) (by decide) rfl⟩

lemma nearestAux_lt (p : Point) :
    ∀ (cs : List Point) (i : Nat) (bd : ℚ) (best : Nat),
      best < i → nearestAux p cs i bd best < i + cs.length := by
  intro cs
  induction cs with
  | nil =>
    intro i bd best h
    simpa [nearestAux] using h
  | cons c rest ih =>
    intro i bd best h
    simp only [nearestAux, List.length_cons]
    split
    · have h2 := ih (i + 1) (sqDist p c) i (Nat.lt_succ_self i)
      omega
    · have h2 := ih (i + 1) bd best (Nat.lt_succ_of_lt h)
      omega

lemma nearest_lt (cs : List Point) (p : Point) (h : cs ≠ []) :
    nearest cs p < cs.length := by
  match cs with
  | [] => exact absurd rfl h
  | c :: rest =>
    have h2 := nearestAux_lt p rest 1 (sqDist p c) 0 Nat.one_pos
    simp only [nearest, List.length_cons]
    omega

lemma assign_length (cs ps : List Point) :
    (assign cs ps).length = ps.length := by
  simp [assign]

lemma assign_lt (cs ps : List Point) (h : cs ≠ []) :
    ∀ l ∈ assign cs ps, l < cs.length := by
  intro l hl
  rcases List.mem_map.mp hl with ⟨p, _, rfl⟩
  exact nearest_lt cs p h

lemma updateCentroids_length (cs ps : List Point) (ls : List Nat) :
    (updateCentroids cs ps ls).length = cs.length := by
  simp [updateCentroids]

lemma kmeansLoop_props (ps : List Point) :
    ∀ (fuel : Nat) (cs : List Point) (k : Nat), cs ≠ [] → cs.length ≤ k →
      (kmeansLoop ps fuel cs).length = ps.length ∧
      ∀ l ∈ kmeansLoop ps fuel cs, l < k := by
  intro fuel
  induction fuel with
  | zero =>
    intro cs k hne hle
    exact ⟨assign_length cs ps,
      fun l hl => lt_of_lt_of_le (assign_lt cs ps hne l hl) hle⟩
  | succ n ih =>
    intro cs k hne hle
    simp only [kmeansLoop]
    split
    · exact ⟨assign_length cs ps,
        fun l hl => lt_of_lt_of_le (assign_lt cs ps hne l hl) hle⟩
    · apply ih
      · intro h0
        apply hne
        have hl2 := updateCentroids_length cs ps (assign cs ps)
        rw [h0] at hl2
        simp only [List.length_nil] at hl2
        exact List.length_eq_zero.mp hl2.symm
      · rw [updateCentroids_length]
        exact hle

lemma initCentroids_length (s k : Nat) (ps : List Point) :
    (initCentroids s k ps).length = min k ps.length := by
  simp only [initCentroids, List.length_take, List.length_append,
    List.length_drop]
  by_cases h : ps.length = 0
  · simp [h]
  · have hm : s % ps.length < ps.length := Nat.mod_lt _ (Nat.pos_of_ne_zero h)
    simp only [if_neg h]
    omega

/-- C6. Clustering is deterministic and well formed: with the fixed seed
baked into `perform_clustering`, two runs on the identical projected table
and identical k coincide (the embedding is a pure function of its inputs,
the only randomness of the library call being fixed by random_state=42),
there is exactly one label per row, and every label lies in [0, k). -/
theorem perform_clustering_deterministic_and_bounded
    (data : List Point) (k : Nat) (hk : 0 < k) (hd : data ≠ []) :
    perform_clustering data k = perform_clustering data k ∧
    (perform_clustering data k).length = data.length ∧
    ∀ l ∈ perform_clustering data k, l < k := by
  have hdl : 0 < data.length := List.length_pos.mpr hd
  have hlen : (initCentroids 42 k data).length = min k data.length :=
    initCentroids_length 42 k data
  have hne : initCentroids 42 k data ≠ [] := by
    intro h0
    rw [h0] at hlen
    simp only [List.length_nil] at hlen
    omega
  have hle : (initCentroids 42 k data).length ≤ k := by
    rw [hlen]
    exact Nat.min_le_left k data.length
  obtain ⟨h1, h2⟩ := kmeansLoop_props data 300 (initCentroids 42 k data) k hne hle
  exact ⟨rfl, h1, h2⟩

/-- Witness for C6 at a concrete projection and k = 2. -/
theorem perform_clustering_deterministic_and_bounded_witness :
    (0 < 2) ∧ (([[1, 1], [5, 5]] : List Point) ≠ []) ∧
    (perform_clustering [[1, 1], [5, 5]] 2 =
        perform_clustering [[1, 1], [5, 5]] 2 ∧
      (perform_clustering [[1, 1], [5, 5]] 2).length =
        ([[1, 1], [5, 5]] : List Point).length ∧
      ∀ l ∈ perform_clustering [[1, 1], [5, 5]] 2, l < 2) :=
  ⟨Nat.zero_lt_two, by decide,
    perform_clustering_deterministic_and_bounded [[1, 1], [5, 5]] 2
      Nat.zero_lt_two (by decide)⟩

/-- C9. On the scenario table, the report has exactly the rows
(A, mean 9/2, count 2, std squared 1/2 — a std within [0.707, 0.708]) and
(B, mean 3, count 1, std undefined), and that order is already sorted by
descending mean, so the displayed sorted report equals it. -/
theorem report_flight_scenario :
    generate_report scenarioTable =
      some [⟨Cell.str "A", 9 / 2, 2, some (1 / 2)⟩,
            ⟨Cell.str "B", 3, 1, none⟩] ∧
    sortDescByMean [⟨Cell.str "A", 9 / 2, 2, some (1 / 2)⟩,
        ⟨Cell.str "B", 3, 1, none⟩] =
      [⟨Cell.str "A", 9 / 2, 2, some (1 / 2)⟩, ⟨Cell.str "B", 3, 1, none⟩] ∧
    ((707 : ℚ) / 1000) ^ 2 ≤ 1 / 2 ∧ (1 / 2 : ℚ) ≤ ((708 : ℚ) / 1000) ^ 2 := by
  have hcond : "flight_id" ∈ scenarioTable.cols ∧
      "satisfaction_score" ∈ scenarioTable.cols := by decide
  have hkeys : groupKeys scenarioTable = [Cell.str "A", Cell.str "B"] := by
    decide
  have hsA : groupScores scenarioTable (Cell.str "A") = [4, 5] := by decide
  have hsB : groupScores scenarioTable (Cell.str "B") = [3] := by decide
  have hrowA : mkGroupRow scenarioTable (Cell.str "A") =
      ⟨Cell.str "A", 9 / 2, 2, some (1 / 2)⟩ := by
    simp only [mkGroupRow, hsA]
    norm_num [sampleVar]
  have hrowB : mkGroupRow scenarioTable (Cell.str "B") =
      ⟨Cell.str "B", 3, 1, none⟩ := by
    simp only [mkGroupRow, hsB]
    norm_num
  refine ⟨?_, ?_, by norm_num, by norm_num⟩
  · simp only [generate_report, if_pos hcond, hkeys, List.map_cons,
      List.map_nil, hrowA, hrowB]
  · simp only [sortDescByMean, insertDesc]
    norm_num
